import Mathlib

/-!
Verification of the calendar feed normalizer in `scripts/fetch_calendar.py`.

The Python source is shallowly embedded below.  Strings are modelled as
`List Char` (Python `str` is a sequence of Unicode code points), fallible
Python operations (`int(...)`, the `datetime` constructor) return
`Except Unit`, and the `try/except` in `parse_ics` becomes an explicit
handler.  All definitions are executable so that concrete ICS documents
can be evaluated inside proofs.
-/

deriving instance DecidableEq for Except

namespace FetchCalendar

/-- Convert a string literal to the character-list representation used by
the embedding. -/
def str (s : String) : List Char := s.data

/-- Python `str.strip()` whitespace test (ASCII whitespace; the feeds at
hand contain no exotic Unicode whitespace). -/
def isPySpace (c : Char) : Bool :=
  c == ' ' || c == '\t' || c == '\n' || c == '\r' || c == '\x0b' || c == '\x0c'

/-- Python `str.strip()`: remove leading and trailing whitespace. -/
def pyStrip (s : List Char) : List Char :=
  ((s.dropWhile isPySpace).reverse.dropWhile isPySpace).reverse

/-- Python slicing `s[a:b]` for `0 ≤ a ≤ b`. -/
def pySlice (s : List Char) (a b : Nat) : List Char :=
  (s.drop a).take (b - a)

/-- Digit accumulation for `pyInt`; fails on any non-digit character. -/
def digitsCore (acc : Nat) : List Char → Except Unit Nat
  | [] => .ok acc
  | c :: rest =>
      if c.isDigit then digitsCore (acc * 10 + (c.toNat - '0'.toNat)) rest
      else .error ()

/-- A non-empty all-digit string to a natural number. -/
def digitsToNat : List Char → Except Unit Nat
  | [] => .error ()
  | l => digitsCore 0 l

/-- Python `int(s)` on a decimal string: leading/trailing whitespace is
allowed, then an optional sign followed by a non-empty digit run.
(Underscore digit grouping, accepted by CPython, is not modelled: no ICS
date field uses it.)  Raises `ValueError` (here `.error`) otherwise. -/
def pyInt (s : List Char) : Except Unit Int :=
  match pyStrip s with
  | '+' :: rest => (digitsToNat rest).map Int.ofNat
  | '-' :: rest => (digitsToNat rest).map (fun n => -(Int.ofNat n))
  | t => (digitsToNat t).map Int.ofNat

/-- A Python `datetime.datetime` as constructed by `fetch_calendar.py`:
validated Gregorian fields plus a fixed whole-hour UTC offset
(`tzinfo=timezone(timedelta(hours=offsetHours))`; `offsetHours = 0` for
`timezone.utc`). -/
structure PyDateTime where
  year : Nat
  month : Nat
  day : Nat
  hour : Nat
  minute : Nat
  second : Nat
  offsetHours : Int
  deriving DecidableEq, Repr

/-- Gregorian leap-year test, as used by Python's `datetime`. -/
def isLeap (y : Nat) : Bool :=
  (y % 4 == 0 && y % 100 != 0) || y % 400 == 0

/-- Days in a month of a given year (Python `calendar` rule). -/
def daysInMonth (y m : Nat) : Nat :=
  if m = 2 then (if isLeap y then 29 else 28)
  else if m = 4 ∨ m = 6 ∨ m = 9 ∨ m = 11 then 30
  else 31

/-- The `datetime(...)` constructor: validates every field exactly as
CPython does (`MINYEAR = 1`, `MAXYEAR = 9999`) and raises `ValueError`
(here `.error`) on any out-of-range field. -/
def mkDatetime (y mo d hh mi ss : Int) (off : Int) : Except Unit PyDateTime :=
  if 1 ≤ y ∧ y ≤ 9999 ∧ 1 ≤ mo ∧ mo ≤ 12 ∧
     1 ≤ d ∧ d ≤ (daysInMonth y.toNat mo.toNat : Int) ∧
     0 ≤ hh ∧ hh ≤ 23 ∧ 0 ≤ mi ∧ mi ≤ 59 ∧ 0 ≤ ss ∧ ss ≤ 59 then
    .ok ⟨y.toNat, mo.toNat, d.toNat, hh.toNat, mi.toNat, ss.toNat, off⟩
  else .error ()

/-- The field constraints CPython's `datetime` constructor enforces; a
constructed `PyDateTime` always satisfies them. -/
def validRanges (t : PyDateTime) : Prop :=
  1 ≤ t.year ∧ t.year ≤ 9999 ∧ 1 ≤ t.month ∧ t.month ≤ 12 ∧
  1 ≤ t.day ∧ t.day ≤ daysInMonth t.year t.month ∧
  t.hour ≤ 23 ∧ t.minute ≤ 59 ∧ t.second ≤ 59

/-- Days before January 1 of year `y` in the proleptic Gregorian
calendar (Python `date.toordinal` arithmetic, ordinal of 0001-01-01 is 1). -/
def daysBeforeYear (y : Nat) : Nat :=
  365 * (y - 1) + (y - 1) / 4 - (y - 1) / 100 + (y - 1) / 400

/-- Days in year `y` before the first day of month `m`. -/
def daysBeforeMonth (y m : Nat) : Nat :=
  (List.range (m - 1)).foldl (fun acc i => acc + daysInMonth y (i + 1)) 0

/-- Python `date(y, m, d).toordinal()`. -/
def toOrdinal (y m d : Nat) : Nat :=
  daysBeforeYear y + daysBeforeMonth y m + d

/-- Python `date(y, m, d).weekday()`: Monday = 0 … Sunday = 6. -/
def weekday (y m d : Nat) : Nat :=
  (toOrdinal y m d + 6) % 7

/-- Naive (offset-ignoring) timeline position in seconds; datetime
comparison on naive values is equivalent to comparing these numbers. -/
def naiveSecondsN (y mo d hh mi ss : Nat) : Nat :=
  86400 * toOrdinal y mo d + 3600 * hh + 60 * mi + ss

/-- Naive seconds of a `PyDateTime`'s clock fields. -/
def naiveSeconds (t : PyDateTime) : Int :=
  (naiveSecondsN t.year t.month t.day t.hour t.minute t.second : Int)

/-- The instant an aware `datetime` denotes, in seconds: naive clock
reading minus its UTC offset.  Python compares aware datetimes by this
value. -/
def instantSeconds (t : PyDateTime) : Int :=
  naiveSeconds t - 3600 * t.offsetHours

/-- `max(datetime(y, M, d) for d in range(25, 32) if ....weekday() == 6)`:
the last Sunday of month `M` of year `y`, as a day number.  (Python's
`max` would raise on an empty sequence; every run of seven consecutive
days contains a Sunday, so the filtered list is never empty.) -/
def lastSunday (y m : Nat) : Nat :=
  (((List.range 7).map (fun i => 25 + i)).filter
    (fun d => weekday y m d == 6)).foldl max 0

/-- `_is_cest(dt)`: true iff the naive datetime lies in
`[midnight of the last Sunday of March, midnight of the last Sunday of
October)` of its own year (the code compares naive `datetime` objects). -/
def isCest (t : PyDateTime) : Bool :=
  decide (naiveSecondsN t.year 3 (lastSunday t.year 3) 0 0 0 ≤
            naiveSecondsN t.year t.month t.day t.hour t.minute t.second) &&
  decide (naiveSecondsN t.year t.month t.day t.hour t.minute t.second <
            naiveSecondsN t.year 10 (lastSunday t.year 10) 0 0 0)

/-- Python `value.endswith("Z")`. -/
def endsWithZ (s : List Char) : Bool :=
  match s.reverse with
  | 'Z' :: _ => true
  | _ => false

/-- The non-all-day arm of `parse_dt` (lines 58-68 of the source): parse
`y, mo, d` from `[0:4] [4:6] [6:8]`, `hh, mm` from `[9:11] [11:13]`,
seconds from `[13:15]` only when the value has at least 15 characters,
then branch on a trailing `Z`.  Any `int` or `datetime` failure aborts
the whole candidate. -/
def parseTimed (value : List Char) : Except Unit (PyDateTime × Bool) :=
  match pyInt (pySlice value 0 4) with
  | .error e => .error e
  | .ok y =>
  match pyInt (pySlice value 4 6) with
  | .error e => .error e
  | .ok mo =>
  match pyInt (pySlice value 6 8) with
  | .error e => .error e
  | .ok d =>
  match pyInt (pySlice value 9 11) with
  | .error e => .error e
  | .ok hh =>
  match pyInt (pySlice value 11 13) with
  | .error e => .error e
  | .ok mm =>
  match (if 15 ≤ value.length then pyInt (pySlice value 13 15) else .ok 0) with
  | .error e => .error e
  | .ok ss =>
  if endsWithZ value then
    match mkDatetime y mo d hh mm ss 0 with
    | .error e => .error e
    | .ok dt => .ok (dt, false)
  else
    match mkDatetime y mo d hh mm ss 0 with
    | .error e => .error e
    | .ok naive =>
      match mkDatetime y mo d hh mm ss (if isCest naive then 2 else 1) with
      | .error e => .error e
      | .ok dt => .ok (dt, false)

/-- `parse_dt(value)`: strip, then either the 8-character all-day form
(midnight UTC, `all_day = true`) or the timed forms. -/
def parse_dt (value0 : List Char) : Except Unit (PyDateTime × Bool) :=
  let value := pyStrip value0
  if value.length = 8 then
    match pyInt (pySlice value 0 4) with
    | .error e => .error e
    | .ok y =>
    match pyInt (pySlice value 4 6) with
    | .error e => .error e
    | .ok mo =>
    match pyInt (pySlice value 6 8) with
    | .error e => .error e
    | .ok d =>
    match mkDatetime y mo d 0 0 0 0 with
    | .error e => .error e
    | .ok dt => .ok (dt, true)
  else
    parseTimed value

end FetchCalendar

namespace FetchCalendar

/-- `unfold(text)`: `re.sub(r"\r\n[ \t]|\n[ \t]", "", text)` — delete
every CRLF-or-LF line break that is immediately followed by a space or a
tab, scanning left to right, non-overlapping. -/
def unfold : List Char → List Char
  | '\r' :: '\n' :: c :: rest =>
      if c == ' ' || c == '\t' then unfold rest
      else '\r' :: '\n' :: unfold (c :: rest)
  | '\n' :: c :: rest =>
      if c == ' ' || c == '\t' then unfold rest
      else '\n' :: unfold (c :: rest)
  | c :: rest => c :: unfold rest
  | [] => []

/-- First index at which `sep` occurs in `s` (leftmost match). -/
def findSeqIdx (sep : List Char) : List Char → Option Nat
  | [] => if sep.isEmpty then some 0 else none
  | c :: rest =>
      if sep.isPrefixOf (c :: rest) then some 0
      else (findSeqIdx sep rest).map (· + 1)

/-- Python `s.split(sep)` for a non-empty separator, fuelled so that the
kernel can evaluate it (each step consumes at least one character, so
`s.length + 1` steps always suffice). -/
def splitSeqFuel (sep : List Char) : Nat → List Char → List (List Char)
  | 0, s => [s]
  | fuel + 1, s =>
      match findSeqIdx sep s with
      | none => [s]
      | some i => s.take i :: splitSeqFuel sep fuel (s.drop (i + sep.length))

/-- Python `s.split(sep)` (non-empty `sep`). -/
def pySplit (sep s : List Char) : List (List Char) :=
  splitSeqFuel sep (s.length + 1) s

/-- The line starts at which `re.MULTILINE`'s `^` matches: position 0 and
every position just after a `\n`.  Splitting on `\n` lists exactly the
text from each such position to the next `\n` (or end). -/
def pyLines : List Char → List (List Char)
  | [] => [[]]
  | c :: rest =>
      if c == '\n' then [] :: pyLines rest
      else
        match pyLines rest with
        | [] => [[c]]
        | h :: t => (c :: h) :: t

/-- The regex tail `[^:\r\n]*:([^\r\n]+)` applied to what follows the key
on a line: skip non-colon, non-CR/LF characters up to a `:`, then capture
the (greedy, non-empty) run of non-CR/LF characters. -/
def matchAfterKey : List Char → Option (List Char)
  | [] => none
  | c :: rest =>
      if c == ':' then
        let v := rest.takeWhile (fun x => !(x == '\r' || x == '\n'))
        if v.isEmpty then none else some v
      else if c == '\r' || c == '\n' then none
      else matchAfterKey rest

/-- One attempt of the search pattern built from `key` followed by
`[^:\r\n]*:([^\r\n]+)` at a line start: the line must begin with `key`
literally and the tail must match. -/
def matchKeyLine (key l : List Char) : Option (List Char) :=
  if l.take key.length == key then matchAfterKey (l.drop key.length)
  else none

/-- `get(key)` inside `parse_ics`: first matching line of the block wins,
its captured group is stripped; no match gives `""`. -/
def get (key block : List Char) : List Char :=
  match (pyLines block).findSome? (matchKeyLine key) with
  | some v => pyStrip v
  | none => []

/-- One normalized event record as built by `parse_ics` (the dict holding
`summary`, `dt`, `all_day`, `location`, `description`). -/
structure ICSEvent where
  summary : List Char
  dt : PyDateTime
  allDay : Bool
  location : List Char
  description : List Char
  deriving DecidableEq, Repr

/-- The body of the `for block ...` loop: extract `SUMMARY` and `DTSTART`,
drop the block if either is falsy, parse the date (dropping the block on
any exception), then build the record. -/
def parseBlock (block : List Char) : Option ICSEvent :=
  let summary := get (str "SUMMARY") block
  let dtstartRaw := get (str "DTSTART") block
  if summary.isEmpty || dtstartRaw.isEmpty then none
  else
    match parse_dt dtstartRaw with
    | .error _ => none
    | .ok (dt, allDay) =>
        let desc := get (str "DESCRIPTION") block
        some { summary := summary, dt := dt, allDay := allDay,
               location := get (str "LOCATION") block,
               description := if desc.isEmpty then [] else desc.take 200 }

/-- `parse_ics(text)`: unfold, split on `BEGIN:VEVENT`, skip the preamble
segment, and accumulate the surviving blocks' events in order. -/
def parse_ics (text : List Char) : List ICSEvent :=
  ((pySplit (str "BEGIN:VEVENT") (unfold text)).drop 1).filterMap parseBlock

/-- The loop body with the `try/except Exception: continue` made explicit:
the only operation that can raise is `parse_dt`, and its error is turned
into a skip, so the result is always `.ok`. -/
def parseBlockE (block : List Char) : Except Unit (Option ICSEvent) :=
  let summary := get (str "SUMMARY") block
  let dtstartRaw := get (str "DTSTART") block
  if summary.isEmpty || dtstartRaw.isEmpty then .ok none
  else
    match parse_dt dtstartRaw with
    | .error _ => .ok none
    | .ok (dt, allDay) =>
        let desc := get (str "DESCRIPTION") block
        .ok (some { summary := summary, dt := dt, allDay := allDay,
                    location := get (str "LOCATION") block,
                    description := if desc.isEmpty then [] else desc.take 200 })

/-- The event-accumulating loop of `parse_ics` with exceptions explicit:
an uncaught exception in any block would abort the whole traversal. -/
def runBlocksE : List (List Char) → Except Unit (List ICSEvent)
  | [] => .ok []
  | b :: rest =>
      match parseBlockE b with
      | .error e => .error e
      | .ok none => runBlocksE rest
      | .ok (some ev) =>
          match runBlocksE rest with
          | .error e => .error e
          | .ok evs => .ok (ev :: evs)

/-- Exception-explicit `parse_ics`: any uncaught per-block exception would
surface here as `.error`. -/
def parse_icsE (text : List Char) : Except Unit (List ICSEvent) :=
  runBlocksE ((pySplit (str "BEGIN:VEVENT") (unfold text)).drop 1)

end FetchCalendar

namespace FetchCalendar

/-- Sort key used by `fetch`: `key=lambda e: e["dt"]` — aware datetimes
compare as instants. -/
def evKey (e : ICSEvent) : Int := instantSeconds e.dt

/-- The ordering `sorted` uses on events. -/
def evLe (a b : ICSEvent) : Prop := evKey a ≤ evKey b

instance : DecidableRel evLe := fun _ _ => Int.decLe _ _

instance : IsTotal ICSEvent evLe := ⟨fun _ _ => Int.le_total _ _⟩

instance : IsTrans ICSEvent evLe := ⟨fun _ _ _ h h' => le_trans h h'⟩

/-- The window test `now <= e["dt"] <= cutoff` with
`cutoff = now + timedelta(days=daysAhead)`; `now` is an instant in
seconds. -/
def inWindow (now : Int) (daysAhead : Nat) (e : ICSEvent) : Bool :=
  decide (now ≤ evKey e ∧ evKey e ≤ now + 86400 * (daysAhead : Int))

/-- The `upcoming` list of `fetch` (lines 142-145): window-filter, stable
sort by start instant, truncate to `MAX_EVENTS`. -/
def fetchEvents (events : List ICSEvent) (now : Int)
    (daysAhead maxEvents : Nat) : List ICSEvent :=
  ((events.filter (inWindow now daysAhead)).insertionSort evLe).take maxEvents

/-- Zero-padded two-digit decimal rendering. -/
def pad2 (n : Nat) : List Char :=
  [Nat.digitChar (n / 10 % 10), Nat.digitChar (n % 10)]

/-- Zero-padded four-digit decimal rendering. -/
def pad4 (n : Nat) : List Char :=
  [Nat.digitChar (n / 1000 % 10), Nat.digitChar (n / 100 % 10),
   Nat.digitChar (n / 10 % 10), Nat.digitChar (n % 10)]

/-- The UTC-offset suffix Python's `datetime.isoformat()` prints for a
fixed whole-hour offset. -/
def isoOffset (off : Int) : List Char :=
  if 0 ≤ off then '+' :: (pad2 off.toNat ++ str ":00")
  else '-' :: (pad2 (-off).toNat ++ str ":00")

/-- `e["dt"].isoformat()` for the datetimes this script constructs
(zero microseconds, fixed whole-hour offset):
`YYYY-MM-DDTHH:MM:SS±HH:MM`. -/
def isoformat (t : PyDateTime) : List Char :=
  pad4 t.year ++ '-' :: pad2 t.month ++ '-' :: pad2 t.day ++
    'T' :: pad2 t.hour ++ ':' :: pad2 t.minute ++ ':' :: pad2 t.second ++
    isoOffset t.offsetHours

/-- The `date` fields of the exported `events` array (lines 150-158). -/
def outputDates (events : List ICSEvent) (now : Int)
    (daysAhead maxEvents : Nat) : List (List Char) :=
  (fetchEvents events now daysAhead maxEvents).map (fun e => isoformat e.dt)

end FetchCalendar

namespace FetchCalendar

lemma pyInt_nil : pyInt [] = .error () := rfl

/-- A successful `datetime` construction returns exactly the validated
fields. -/
lemma mkDatetime_ok_fields {y mo d hh mi ss off : Int} {t : PyDateTime}
    (h : mkDatetime y mo d hh mi ss off = .ok t) :
    t = ⟨y.toNat, mo.toNat, d.toNat, hh.toNat, mi.toNat, ss.toNat, off⟩ := by
  simp only [mkDatetime] at h
  split at h
  · injection h with h'
    exact h'.symm
  · exact Except.noConfusion h

/-- A successful `datetime` construction satisfies the CPython field
constraints. -/
lemma mkDatetime_ok_ranges {y mo d hh mi ss off : Int} {t : PyDateTime}
    (h : mkDatetime y mo d hh mi ss off = .ok t) : validRanges t := by
  simp only [mkDatetime] at h
  split at h
  case isTrue hc =>
    injection h with h'
    subst h'
    simp only [validRanges]
    omega
  case isFalse hc => exact Except.noConfusion h

/-- `_is_cest` ignores the attached offset. -/
lemma isCest_mk (y mo d hh mi ss : Nat) (o1 o2 : Int) :
    isCest ⟨y, mo, d, hh, mi, ss, o1⟩ = isCest ⟨y, mo, d, hh, mi, ss, o2⟩ := rfl

/-- Case analysis on a successful `parse_dt` of a timed (non-8-character)
value: the result is never all-day, is field-valid, and carries offset 0
for a `Z` value, else the DST-resolved offset. -/
lemma parseTimed_cases {value : List Char} {dt : PyDateTime} {ad : Bool}
    (h : parseTimed value = .ok (dt, ad)) :
    ad = false ∧ validRanges dt ∧
      ((endsWithZ value = true ∧ dt.offsetHours = 0) ∨
       (endsWithZ value = false ∧
         dt.offsetHours = (if isCest dt then 2 else 1))) := by
  simp only [parseTimed] at h
  split at h
  · exact Except.noConfusion h
  split at h
  · exact Except.noConfusion h
  split at h
  · exact Except.noConfusion h
  split at h
  · exact Except.noConfusion h
  split at h
  · exact Except.noConfusion h
  split at h
  · exact Except.noConfusion h
  split at h
  case isTrue hz =>
    split at h
    · exact Except.noConfusion h
    rename_i dt0 heq
    simp only [Except.ok.injEq, Prod.mk.injEq] at h
    obtain ⟨rfl, rfl⟩ := h
    refine ⟨rfl, mkDatetime_ok_ranges heq, .inl ⟨hz, ?_⟩⟩
    rw [mkDatetime_ok_fields heq]
  case isFalse hz =>
    split at h
    · exact Except.noConfusion h
    rename_i naive heq1
    split at h
    · exact Except.noConfusion h
    rename_i dt0 heq2
    simp only [Except.ok.injEq, Prod.mk.injEq] at h
    obtain ⟨rfl, rfl⟩ := h
    simp only [Bool.not_eq_true] at hz
    refine ⟨rfl, mkDatetime_ok_ranges heq2, .inr ⟨hz, ?_⟩⟩
    have hf1 := mkDatetime_ok_fields heq1
    have hf2 := mkDatetime_ok_fields heq2
    subst hf1
    subst hf2
    rfl

/-- Full case analysis on a successful `parse_dt`: the three supported
shapes with their offsets and field validity. -/
lemma parse_dt_cases {v : List Char} {dt : PyDateTime} {ad : Bool}
    (h : parse_dt v = .ok (dt, ad)) :
    (ad = true ∧ (pyStrip v).length = 8 ∧ dt.offsetHours = 0 ∧ validRanges dt) ∨
    (ad = false ∧ (pyStrip v).length ≠ 8 ∧ endsWithZ (pyStrip v) = true ∧
      dt.offsetHours = 0 ∧ validRanges dt) ∨
    (ad = false ∧ (pyStrip v).length ≠ 8 ∧ endsWithZ (pyStrip v) = false ∧
      dt.offsetHours = (if isCest dt then 2 else 1) ∧ validRanges dt) := by
  simp only [parse_dt] at h
  split at h
  case isTrue hlen =>
    left
    split at h
    · exact Except.noConfusion h
    split at h
    · exact Except.noConfusion h
    split at h
    · exact Except.noConfusion h
    split at h
    · exact Except.noConfusion h
    rename_i dt0 heq
    simp only [Except.ok.injEq, Prod.mk.injEq] at h
    obtain ⟨rfl, rfl⟩ := h
    refine ⟨rfl, hlen, ?_, mkDatetime_ok_ranges heq⟩
    rw [mkDatetime_ok_fields heq]
  case isFalse hlen =>
    obtain ⟨rfl, hranges, hcase⟩ := parseTimed_cases h
    rcases hcase with ⟨hz, hoff⟩ | ⟨hz, hoff⟩
    · exact .inr (.inl ⟨rfl, hlen, hz, hoff, hranges⟩)
    · exact .inr (.inr ⟨rfl, hlen, hz, hoff, hranges⟩)

/-- A timed value of at most 11 characters always fails: the minutes
slice `value[11:13]` is empty and `int("")` raises. -/
lemma parseTimed_short {value : List Char} (h11 : value.length ≤ 11) :
    parseTimed value = .error () := by
  have hslice : pySlice value 11 13 = [] := by
    simp [pySlice, List.drop_eq_nil_of_le h11]
  simp only [parseTimed, hslice, pyInt_nil]
  cases pyInt (pySlice value 0 4)
  · rfl
  cases pyInt (pySlice value 4 6)
  · rfl
  cases pyInt (pySlice value 6 8)
  · rfl
  cases pyInt (pySlice value 9 11)
  · rfl
  rfl

/-- The explicit-exception view of one block always returns `.ok`, with
the same outcome as the total `parseBlock`. -/
lemma parseBlockE_eq_ok (b : List Char) : parseBlockE b = .ok (parseBlock b) := by
  simp only [parseBlockE, parseBlock]
  split
  · rfl
  · rcases h : parse_dt (get (str "DTSTART") b) with e | ⟨dt, allDay⟩ <;> simp [h]

end FetchCalendar

open FetchCalendar in
/-- C6: a block whose extracted `SUMMARY` or `DTSTART` is empty (absent,
valueless, or whitespace-only) contributes zero events, both in the total
parser and in the exception-explicit one (so nothing is raised). -/
theorem claim_C6_missing_fields_drop (block : List Char)
    (h : FetchCalendar.get (str "SUMMARY") block = [] ∨
         FetchCalendar.get (str "DTSTART") block = []) :
    parseBlock block = none ∧ parseBlockE block = .ok none := by
  rcases h with h | h <;> simp [parseBlock, parseBlockE, h]

open FetchCalendar in
/-- Witness for C6 at a concrete block with no SUMMARY line. -/
theorem claim_C6_missing_fields_drop_witness :
    parseBlock (str "\r\nDTSTART:20260101\r\nEND:VEVENT\r\n") = none ∧
    parseBlockE (str "\r\nDTSTART:20260101\r\nEND:VEVENT\r\n") = .ok none :=
  claim_C6_missing_fields_drop (str "\r\nDTSTART:20260101\r\nEND:VEVENT\r\n")
    (Or.inl (by decide))

open FetchCalendar in
/-- C9: the whole ICS pipeline is total — with every per-candidate
exception made explicit, the parse always returns `.ok` of exactly the
events the total `parse_ics` computes, for every input string. -/
theorem claim_C9_pipeline_total (text : List Char) :
    parse_icsE text = .ok (parse_ics text) := by
  simp only [parse_icsE, parse_ics]
  generalize (pySplit (str "BEGIN:VEVENT") (unfold text)).drop 1 = blocks
  induction blocks with
  | nil => rfl
  | cons b t ih =>
    simp only [runBlocksE, parseBlockE_eq_ok, List.filterMap_cons]
    rcases hb : parseBlock b with _ | ev
    · simpa [hb] using ih
    · simp [hb, ih]

namespace FetchCalendar

/-- A reference "now": the instant 2026-06-01T00:00:00Z, used as the
clock value in concrete window scenarios. -/
def sampleNow : Int := instantSeconds ⟨2026, 6, 1, 0, 0, 0, 0⟩

end FetchCalendar

open FetchCalendar in
/-- C1 counterexample: the floating local value `20260329T023000` (02:30
on the last Sunday of March 2026) resolves to offset +2, not the +1 the
claim requires — the code switches to the advanced offset at local naive
midnight of that Sunday, not at the 01:00 UTC instant. -/
theorem claim_C1_dst_counterexample :
    (parse_dt (str "20260329T023000")).map (fun p => p.1.offsetHours) = .ok 2 ∧
    (parse_dt (str "20260329T023000")).map (fun p => p.1.offsetHours) ≠ .ok 1 := by
  decide

open FetchCalendar in
/-- C1 amended: with base +1 and advanced +2, `2026-03-28T02:30:00` maps
to +1 while `2026-03-29T02:30:00` and `2026-03-29T03:30:00` map to +2;
in general a floating local value receives the advanced offset exactly
when its naive clock reading lies in the half-open interval from local
midnight of the last Sunday of March to local midnight of the last Sunday
of October of its year. -/
theorem claim_C1_dst_rule_amended :
    (parse_dt (str "20260328T023000")).map (fun p => p.1.offsetHours) = .ok 1 ∧
    (parse_dt (str "20260329T023000")).map (fun p => p.1.offsetHours) = .ok 2 ∧
    (parse_dt (str "20260329T033000")).map (fun p => p.1.offsetHours) = .ok 2 ∧
    ∀ v dt, parse_dt v = .ok (dt, false) → dt.offsetHours ≠ 0 →
      (dt.offsetHours = 2 ↔
        (naiveSecondsN dt.year 3 (lastSunday dt.year 3) 0 0 0 ≤
            naiveSecondsN dt.year dt.month dt.day dt.hour dt.minute dt.second ∧
          naiveSecondsN dt.year dt.month dt.day dt.hour dt.minute dt.second <
            naiveSecondsN dt.year 10 (lastSunday dt.year 10) 0 0 0)) := by
  refine ⟨by decide, by decide, by decide, ?_⟩
  intro v dt h hoff
  rcases parse_dt_cases h with ⟨had, _⟩ | ⟨_, _, _, hoff0, _⟩ | ⟨_, _, _, hoffe, _⟩
  · exact Bool.noConfusion had
  · exact absurd hoff0 hoff
  · rw [hoffe]
    by_cases hc : isCest dt = true
    · have hc' := hc
      simp only [isCest, Bool.and_eq_true, decide_eq_true_eq] at hc'
      simp only [if_pos hc]
      exact iff_of_true trivial hc'
    · have hc' := hc
      simp only [isCest, Bool.and_eq_true, decide_eq_true_eq] at hc'
      simp only [if_neg hc]
      exact iff_of_false (by decide) hc'

open FetchCalendar in
/-- Witness for C1 amended at the floating value `20260615T090000`. -/
theorem claim_C1_dst_rule_amended_witness :
    (2 : Int) = 2 ↔
      (naiveSecondsN 2026 3 (lastSunday 2026 3) 0 0 0 ≤ naiveSecondsN 2026 6 15 9 0 0 ∧
        naiveSecondsN 2026 6 15 9 0 0 < naiveSecondsN 2026 10 (lastSunday 2026 10) 0 0 0) :=
  claim_C1_dst_rule_amended.2.2.2 (str "20260615T090000")
    ⟨2026, 6, 15, 9, 0, 0, 2⟩ (by decide) (by decide)

open FetchCalendar in
/-- C2 counterexample: a floating local `DTSTART` is exported with the
regional offset `+02:00`, not `+00:00` — the exported `date` string for
`20260615T090000` is `2026-06-15T09:00:00+02:00`. -/
theorem claim_C2_utc_export_counterexample :
    outputDates
        (parse_ics (str "BEGIN:VCALENDAR\r\nBEGIN:VEVENT\r\nSUMMARY:Meet\r\nDTSTART:20260615T090000\r\nEND:VEVENT\r\nEND:VCALENDAR\r\n"))
        sampleNow 30 10 = [str "2026-06-15T09:00:00+02:00"] ∧
    (str "2026-06-15T09:00:00+02:00").drop 19 = str "+02:00" ∧
    str "+02:00" ≠ str "+00:00" := by
  decide

open FetchCalendar in
/-- C2 amended: the exported timestamp carries the offset attached at
parse time — `+00:00` exactly for date-only and explicit-UTC sources,
and the regional offset `+01:00` or `+02:00` for floating local sources
(the encoded instant is still correct in all cases). -/
theorem claim_C2_offsets_amended :
    ∀ v dt ad, parse_dt v = .ok (dt, ad) →
      ((pyStrip v).length = 8 → dt.offsetHours = 0) ∧
      (endsWithZ (pyStrip v) = true → dt.offsetHours = 0) ∧
      ((pyStrip v).length ≠ 8 → endsWithZ (pyStrip v) = false →
        (dt.offsetHours = 1 ∨ dt.offsetHours = 2)) ∧
      (isoOffset dt.offsetHours = str "+00:00" ↔ dt.offsetHours = 0) := by
  intro v dt ad h
  rcases parse_dt_cases h with ⟨_, hlen, hoff, _⟩ | ⟨_, hlen, hz, hoff, _⟩ |
    ⟨_, hlen, hz, hoff, _⟩
  · refine ⟨fun _ => hoff, fun _ => hoff, fun hl _ => absurd hlen hl, ?_⟩
    rw [hoff]; decide
  · refine ⟨fun hl => absurd hl hlen, fun _ => hoff, fun _ hzf => ?_, ?_⟩
    · rw [hz] at hzf
      exact Bool.noConfusion hzf
    · rw [hoff]; decide
  · have h12 : dt.offsetHours = 1 ∨ dt.offsetHours = 2 := by
      rw [hoff]
      by_cases hc : isCest dt = true
      · exact .inr (by rw [if_pos hc])
      · exact .inl (by rw [if_neg hc])
    refine ⟨fun hl => absurd hl hlen, fun hzt => ?_, fun _ _ => h12, ?_⟩
    · rw [hz] at hzt
      exact Bool.noConfusion hzt
    · rcases h12 with h1 | h1 <;> rw [h1] <;> decide

open FetchCalendar in
/-- Witness for C2 amended at the floating value `20260615T090000`. -/
theorem claim_C2_offsets_amended_witness :
    ((pyStrip (str "20260615T090000")).length = 8 → (2 : Int) = 0) ∧
    (endsWithZ (pyStrip (str "20260615T090000")) = true → (2 : Int) = 0) ∧
    ((pyStrip (str "20260615T090000")).length ≠ 8 →
      endsWithZ (pyStrip (str "20260615T090000")) = false →
      ((2 : Int) = 1 ∨ (2 : Int) = 2)) ∧
    (isoOffset 2 = str "+00:00" ↔ (2 : Int) = 0) :=
  claim_C2_offsets_amended (str "20260615T090000")
    ⟨2026, 6, 15, 9, 0, 0, 2⟩ false (by decide)

open FetchCalendar in
/-- C5 counterexample: the 13-character non-`Z` value `20260101T0930` is
outside the three shapes the claim lists, yet it is parsed successfully
(as 09:30:00 local, offset +1) instead of being dropped. -/
theorem claim_C5_shape_counterexample :
    parse_dt (str "20260101T0930") = .ok (⟨2026, 1, 1, 9, 30, 0, 1⟩, false) ∧
    (Except.ok ((⟨2026, 1, 1, 9, 30, 0, 1⟩ : PyDateTime), false) :
        Except Unit (PyDateTime × Bool)) ≠ .error () := by
  decide

open FetchCalendar in
/-- C5 amended: a non-`Z` value whose stripped length is 9 through 11
yields no event, but lengths 12 through 14 with numeric digits parse as
floating local times with seconds 0; other malformed values (such as
non-numeric text) drop only that candidate while the rest of the parse
succeeds. -/
theorem claim_C5_length_rule_amended :
    (∀ v, 9 ≤ (pyStrip v).length → (pyStrip v).length ≤ 11 →
      parse_dt v = .error ()) ∧
    parse_dt (str "20260101T093") = .ok (⟨2026, 1, 1, 9, 3, 0, 1⟩, false) ∧
    parse_dt (str "20260101T0930") = .ok (⟨2026, 1, 1, 9, 30, 0, 1⟩, false) ∧
    parse_dt (str "20260101T09305") = .ok (⟨2026, 1, 1, 9, 30, 0, 1⟩, false) ∧
    parse_ics (str "BEGIN:VEVENT\r\nSUMMARY:Bad\r\nDTSTART:garbage\r\nEND:VEVENT\r\nBEGIN:VEVENT\r\nSUMMARY:Good\r\nDTSTART:20260102\r\nEND:VEVENT\r\n") =
      [{ summary := str "Good", dt := ⟨2026, 1, 2, 0, 0, 0, 0⟩, allDay := true,
         location := [], description := [] }] := by
  refine ⟨?_, by decide, by decide, by decide, by decide⟩
  intro v h9 h11
  simp only [parse_dt]
  rw [if_neg (by omega)]
  exact parseTimed_short h11

open FetchCalendar in
/-- Witness for C5 amended: the 9-character value `20260101T` is dropped. -/
theorem claim_C5_length_rule_amended_witness :
    parse_dt (str "20260101T") = .error () :=
  claim_C5_length_rule_amended.1 (str "20260101T") (by decide) (by decide)

open FetchCalendar in
/-- C10: lexically well-shaped values whose digits encode an out-of-range
date or time (month 13, day 32, hour 25) are dropped — every surviving
candidate satisfies the calendar-validity constraints, and an invalid
candidate is dropped alone while the rest of the parse succeeds. -/
theorem claim_C10_range_validation :
    parse_dt (str "20261332") = .error () ∧
    parse_dt (str "20260132T120000") = .error () ∧
    parse_dt (str "20260101T250000") = .error () ∧
    parse_dt (str "20261301T120000Z") = .error () ∧
    (∀ v dt ad, parse_dt v = .ok (dt, ad) → validRanges dt) ∧
    parse_ics (str "BEGIN:VEVENT\r\nSUMMARY:Bad\r\nDTSTART:20261332\r\nEND:VEVENT\r\nBEGIN:VEVENT\r\nSUMMARY:Good\r\nDTSTART:20260102\r\nEND:VEVENT\r\n") =
      [{ summary := str "Good", dt := ⟨2026, 1, 2, 0, 0, 0, 0⟩, allDay := true,
         location := [], description := [] }] := by
  refine ⟨by decide, by decide, by decide, by decide, ?_, by decide⟩
  intro v dt ad h
  rcases parse_dt_cases h with ⟨_, _, _, hr⟩ | ⟨_, _, _, _, hr⟩ | ⟨_, _, _, _, hr⟩ <;>
    exact hr

open FetchCalendar in
/-- Witness for C10 at the surviving all-day candidate `20260102`. -/
theorem claim_C10_range_validation_witness : validRanges ⟨2026, 1, 2, 0, 0, 0, 0⟩ :=
  claim_C10_range_validation.2.2.2.2.1 (str "20260102")
    ⟨2026, 1, 2, 0, 0, 0, 0⟩ true (by decide)

namespace FetchCalendar

/-- Inserting an event whose key equals `k` puts it in front of every
later-input event with the same key. -/
lemma filter_orderedInsert_eqKey (k : Int) (a : ICSEvent) (l : List ICSEvent)
    (ha : evKey a = k) :
    (List.orderedInsert evLe a l).filter (fun e => evKey e == k) =
      a :: l.filter (fun e => evKey e == k) := by
  induction l with
  | nil => simp [List.orderedInsert, List.filter_cons, ha]
  | cons b t ih =>
    by_cases h : evLe a b
    · simp only [List.orderedInsert, if_pos h]
      simp [List.filter_cons, ha]
    · have hbk : (evKey b == k) = false := by
        simp only [beq_eq_false_iff_ne]
        intro hk
        exact h (le_of_eq (by rw [ha, hk]))
      simp only [List.orderedInsert, if_neg h]
      simp [List.filter_cons, hbk, ih]

/-- Inserting an event with a different key leaves the key-`k` subsequence
unchanged. -/
lemma filter_orderedInsert_neKey (k : Int) (a : ICSEvent) (l : List ICSEvent)
    (ha : (evKey a == k) = false) :
    (List.orderedInsert evLe a l).filter (fun e => evKey e == k) =
      l.filter (fun e => evKey e == k) := by
  induction l with
  | nil => simp [List.orderedInsert, List.filter_cons, ha]
  | cons b t ih =>
    by_cases h : evLe a b
    · simp only [List.orderedInsert, if_pos h]
      simp [List.filter_cons, ha]
    · simp only [List.orderedInsert, if_neg h]
      simp [List.filter_cons, ih]

/-- Stability of the sort: for every key value, the subsequence of events
with that exact start instant is preserved in input order. -/
lemma filter_insertionSort_key (k : Int) (l : List ICSEvent) :
    (List.insertionSort evLe l).filter (fun e => evKey e == k) =
      l.filter (fun e => evKey e == k) := by
  induction l with
  | nil => rfl
  | cons a t ih =>
    simp only [List.insertionSort]
    by_cases ha : evKey a = k
    · rw [filter_orderedInsert_eqKey k a _ ha, ih, List.filter_cons]
      simp [ha]
    · rw [filter_orderedInsert_neKey k a _ (by simp [ha]), ih, List.filter_cons]
      simp [ha]

/-- A concrete event used as a witness input. -/
def evJan : ICSEvent :=
  { summary := str "A", dt := ⟨2026, 1, 1, 12, 0, 0, 0⟩, allDay := false,
    location := [], description := [] }

end FetchCalendar

open FetchCalendar in
/-- C7: every output event's resolved UTC start lies in
`[now, now + daysAhead]`, both endpoints inclusive; and whenever the cap
does not bind, an event appears in the output exactly when it is an input
event inside that window. -/
theorem claim_C7_window_inclusive (events : List ICSEvent) (now : Int) (d m : Nat) :
    (∀ e ∈ fetchEvents events now d m,
        e ∈ events ∧ now ≤ evKey e ∧ evKey e ≤ now + 86400 * (d : Int)) ∧
    ((events.filter (inWindow now d)).length ≤ m →
      ∀ e, e ∈ fetchEvents events now d m ↔
        (e ∈ events ∧ now ≤ evKey e ∧ evKey e ≤ now + 86400 * (d : Int))) := by
  constructor
  · intro e he
    have h2 : e ∈ events.filter (inWindow now d) :=
      (List.perm_insertionSort evLe _).mem_iff.mp (List.take_subset _ _ he)
    have h3 := List.mem_filter.mp h2
    have h4 : now ≤ evKey e ∧ evKey e ≤ now + 86400 * (d : Int) := by
      simpa [inWindow] using h3.2
    exact ⟨h3.1, h4⟩
  · intro hlen e
    have hlen2 : (List.insertionSort evLe (events.filter (inWindow now d))).length ≤ m := by
      rw [List.length_insertionSort]
      exact hlen
    have htake : fetchEvents events now d m =
        List.insertionSort evLe (events.filter (inWindow now d)) :=
      List.take_of_length_le hlen2
    rw [htake, (List.perm_insertionSort evLe _).mem_iff]
    constructor
    · intro he
      have h3 := List.mem_filter.mp he
      exact ⟨h3.1, by simpa [inWindow] using h3.2⟩
    · rintro ⟨hev, hw⟩
      exact List.mem_filter.mpr ⟨hev, by simpa [inWindow] using hw⟩

open FetchCalendar in
/-- Witness for C7 with a singleton input list and a non-binding cap. -/
theorem claim_C7_window_inclusive_witness :
    evJan ∈ fetchEvents [evJan] (instantSeconds ⟨2026, 1, 1, 0, 0, 0, 0⟩) 1 5 ↔
      (evJan ∈ [evJan] ∧
        instantSeconds ⟨2026, 1, 1, 0, 0, 0, 0⟩ ≤ evKey evJan ∧
        evKey evJan ≤ instantSeconds ⟨2026, 1, 1, 0, 0, 0, 0⟩ + 86400 * ((1 : Nat) : Int)) :=
  (claim_C7_window_inclusive [evJan] (instantSeconds ⟨2026, 1, 1, 0, 0, 0, 0⟩) 1 5).2
    (by decide) evJan

open FetchCalendar in
/-- C8: the output list is non-decreasing by start instant, its length is
at most the configured maximum, it is a prefix of the stable sort of the
windowed input, and the sort preserves input order among equal start
instants. -/
theorem claim_C8_sorted_stable_capped (events : List ICSEvent) (now : Int) (d m : Nat) :
    List.Sorted evLe (fetchEvents events now d m) ∧
    (fetchEvents events now d m).length ≤ m ∧
    fetchEvents events now d m =
      (List.insertionSort evLe (events.filter (inWindow now d))).take m ∧
    ∀ k : Int,
      (List.insertionSort evLe (events.filter (inWindow now d))).filter
          (fun e => evKey e == k) =
        (events.filter (inWindow now d)).filter (fun e => evKey e == k) := by
  refine ⟨?_, ?_, rfl, fun k => filter_insertionSort_key k _⟩
  · exact List.Pairwise.sublist (List.take_sublist _ _)
      (List.sorted_insertionSort evLe _)
  · exact List.length_take_le _ _

open FetchCalendar in
set_option maxRecDepth 8192 in
/-- C3 counterexample: two events with identical `UID:series-1`, one raw
series definition (with `RRULE`) and one instance, both visible — the
output contains two events for that UID, not one. -/
theorem claim_C3_no_dedup_counterexample :
    (fetchEvents
      (parse_ics (str "BEGIN:VCALENDAR\r\nBEGIN:VEVENT\r\nUID:series-1\r\nSUMMARY:Standup\r\nRRULE:FREQ=WEEKLY\r\nDTSTART:20260610T100000Z\r\nEND:VEVENT\r\nBEGIN:VEVENT\r\nUID:series-1\r\nSUMMARY:Standup\r\nDTSTART:20260617T100000Z\r\nEND:VEVENT\r\nEND:VCALENDAR\r\n"))
      sampleNow 30 10).length = 2 ∧ (2 : Nat) ≠ 1 := by
  decide

open FetchCalendar in
set_option maxRecDepth 8192 in
/-- C3 amended: the pipeline performs no UID-based deduplication — both
same-UID candidates are retained and exported (window and cap
permitting), earliest first. -/
theorem claim_C3_no_dedup_amended :
    fetchEvents
      (parse_ics (str "BEGIN:VCALENDAR\r\nBEGIN:VEVENT\r\nUID:series-1\r\nSUMMARY:Standup\r\nRRULE:FREQ=WEEKLY\r\nDTSTART:20260610T100000Z\r\nEND:VEVENT\r\nBEGIN:VEVENT\r\nUID:series-1\r\nSUMMARY:Standup\r\nDTSTART:20260617T100000Z\r\nEND:VEVENT\r\nEND:VCALENDAR\r\n"))
      sampleNow 30 10 =
    [{ summary := str "Standup", dt := ⟨2026, 6, 10, 10, 0, 0, 0⟩, allDay := false,
       location := [], description := [] },
     { summary := str "Standup", dt := ⟨2026, 6, 17, 10, 0, 0, 0⟩, allDay := false,
       location := [], description := [] }] := by
  decide

namespace FetchCalendar

/-- Modelled from the spec (field extraction): the key portion of a line
is everything before the first `:` or `;`. -/
def keyPortion (l : List Char) : List Char :=
  l.takeWhile (fun c => !(c == ':' || c == ';'))

/-- Modelled from the spec (field extraction): locate the first line
whose key portion equals the target key exactly and return the substring
after the first `:` on that line, trimmed; absent key (or a line without
`:`) gives an empty result. -/
def getFieldSpec (key block : List Char) : List Char :=
  match (pyLines block).find? (fun l => keyPortion l == key) with
  | none => []
  | some l =>
      match l.dropWhile (fun c => !(c == ':')) with
      | ':' :: v => pyStrip v
      | _ => []

/-- The matching rule the code actually implements, stated directly: the
line must start with the key, continue with non-colon, non-CR/LF
characters up to a `:`, and carry a non-empty value. -/
def hasColonValue : List Char → Bool
  | [] => false
  | c :: rest =>
      if c == ':' then
        !(rest.takeWhile (fun x => !(x == '\r' || x == '\n'))).isEmpty
      else if c == '\r' || c == '\n' then false
      else hasColonValue rest

/-- The value the code extracts from a matching line tail: everything
after the first `:`, up to the end of the line. -/
def valueAfterColon : List Char → List Char
  | [] => []
  | c :: rest =>
      if c == ':' then rest.takeWhile (fun x => !(x == '\r' || x == '\n'))
      else valueAfterColon rest

/-- Amended line-matching predicate: prefix match on the key, not exact
key-portion equality. -/
def lineMatchesAmended (key l : List Char) : Bool :=
  (l.take key.length == key) && hasColonValue (l.drop key.length)

/-- The amended field-extraction function: first line matching the
prefix rule wins; its value is trimmed; otherwise empty. -/
def getFieldAmended (key block : List Char) : List Char :=
  match (pyLines block).find? (lineMatchesAmended key) with
  | none => []
  | some l => pyStrip (valueAfterColon (l.drop key.length))

/-- The regex tail matcher agrees with the predicate/value pair. -/
lemma matchAfterKey_eq (l : List Char) :
    matchAfterKey l =
      (if hasColonValue l then some (valueAfterColon l) else none) := by
  induction l with
  | nil => rfl
  | cons c t ih =>
    simp only [matchAfterKey, hasColonValue, valueAfterColon]
    split_ifs <;> simp_all

/-- One line attempt of the code's search agrees with the amended rule. -/
lemma matchKeyLine_eq (key l : List Char) :
    matchKeyLine key l =
      (if lineMatchesAmended key l then some (valueAfterColon (l.drop key.length))
       else none) := by
  simp only [matchKeyLine, lineMatchesAmended, matchAfterKey_eq]
  by_cases hp : (l.take key.length == key) = true <;> simp [hp]

end FetchCalendar

open FetchCalendar in
/-- C4 counterexample: for key `DTSTART` and the single line
`DTSTARTX:20260101`, whose key portion is `DTSTARTX`, the code still
returns `20260101` — the lookup accepts any line whose key portion merely
starts with the target key, while the exact-equality extraction of the
claim returns an empty result. -/
theorem claim_C4_exact_match_counterexample :
    FetchCalendar.get (str "DTSTART") (str "DTSTARTX:20260101\r\n") = str "20260101" ∧
    getFieldSpec (str "DTSTART") (str "DTSTARTX:20260101\r\n") = [] ∧
    keyPortion (str "DTSTARTX:20260101") ≠ str "DTSTART" ∧
    str "20260101" ≠ ([] : List Char) := by
  decide

open FetchCalendar in
/-- C4 amended: field extraction returns the trimmed value of the first
line that starts with the target key followed by any run of non-colon
characters and a `:` with a non-empty value (a prefix match on the key,
not an exact key-portion match), and an empty result when no line
matches. -/
theorem claim_C4_prefix_match_amended (key block : List Char) :
    FetchCalendar.get key block = getFieldAmended key block := by
  simp only [FetchCalendar.get, getFieldAmended]
  generalize pyLines block = ls
  induction ls with
  | nil => rfl
  | cons l t ih =>
    rw [List.findSome?_cons, List.find?_cons]
    by_cases hm : lineMatchesAmended key l = true
    · simp [matchKeyLine_eq, hm]
    · simp [matchKeyLine_eq, hm, ih]
